import Mathlib

/-!
Verification development for the resume text-analysis pipeline
(`backend/utils.py`): PDF text extraction, section segmentation, skills
extraction, experience estimation and the scoring rubric.

Text is embedded as `List Char` (Python `str`; ASCII case folding and
ASCII whitespace model the character classes used by the code, whose
patterns and keyword lists are all ASCII).  Python floats are embedded
as exact rationals `ℚ`; every value the scorer produces is an exact
multiple of 1/10, where `round(x, 2)` is the identity, so the rational
model is exact on all reachable values.
-/

namespace Resume

/-- Python strings, embedded as lists of characters. -/
abbrev Str := List Char

/-- Coerce a Lean string literal into the embedding. -/
def str (s : String) : Str := s.toList

/-- ASCII whitespace as matched by Python `\s` and stripped by `str.strip()`. -/
def isPySpace (c : Char) : Bool :=
  c = ' ' || c = '\t' || c = '\n' || c = '\r' || c = '\x0b' || c = '\x0c'

/-- Python `\w` word characters (ASCII range): letters, digits, underscore. -/
def isWordC (c : Char) : Bool := c.isAlpha || c.isDigit || c = '_'

/-- Python `str.strip()`: remove leading and trailing whitespace. -/
def pyStrip (s : Str) : Str :=
  ((s.dropWhile isPySpace).reverse.dropWhile isPySpace).reverse

/-- Python `str.split(c)` on a single-character separator:
`"".split(c) = [""]`, and separators delimit (possibly empty) pieces. -/
def pySplit (c : Char) : Str → List Str
  | [] => [[]]
  | x :: xs =>
    if x = c then [] :: pySplit c xs
    else (x :: (pySplit c xs).headD []) :: (pySplit c xs).tail

theorem pySplit_ne_nil (c : Char) (s : Str) : pySplit c s ≠ [] := by
  cases s with
  | nil => simp [pySplit]
  | cons x xs =>
    simp only [pySplit]
    split
    · simp
    · simp

theorem not_mem_of_mem_pySplit {c : Char} {s : Str} :
    ∀ l ∈ pySplit c s, c ∉ l := by
  induction s with
  | nil => intro l hl; simp [pySplit] at hl; simp [hl]
  | cons x xs ih =>
    intro l hl
    rcases List.exists_cons_of_ne_nil (pySplit_ne_nil c xs) with ⟨h, t, ht⟩
    by_cases hx : x = c
    · simp only [pySplit, if_pos hx] at hl
      rcases List.mem_cons.mp hl with hl | hl
      · simp [hl]
      · exact ih l hl
    · simp only [pySplit, if_neg hx, ht, List.headD_cons, List.tail_cons] at hl
      rcases List.mem_cons.mp hl with hl | hl
      · subst hl
        intro hc
        rcases List.mem_cons.mp hc with hc | hc
        · exact hx hc.symm
        · exact ih h (by rw [ht]; exact List.mem_cons_self _ _) hc
      · exact ih l (by rw [ht]; exact List.mem_cons_of_mem _ hl)

theorem pySplit_sep_append {c : Char} {l : Str} (hl : c ∉ l) (rest : Str) :
    pySplit c (l ++ c :: rest) = l :: pySplit c rest := by
  induction l with
  | nil =>
    simp [pySplit]
  | cons x xs ih =>
    have hx : x ≠ c := fun h => hl (by simp [h])
    have hxs : c ∉ xs := fun h => hl (List.mem_cons_of_mem _ h)
    simp only [List.cons_append, pySplit, if_neg hx, List.append_eq]
    rw [ih hxs]
    simp

/-! ### Section segmenter (`split_into_sections`) -/

/-- Match a sequence of case-insensitive literal words separated by `\s+`
at the start of an (already lowercased) line.  This is the shape of every
alternative in the heading regexes, which `re.match` anchors at position 0. -/
def matchSeq : List Str → Str → Bool
  | [], _ => true
  | w :: ws, s =>
    w.isPrefixOf s &&
      (match ws with
       | [] => true
       | _ :: _ =>
         match s.drop w.length with
         | [] => false
         | c :: cs => isPySpace c && matchSeq ws ((c :: cs).dropWhile isPySpace))

/-- Heading regex for `experience`:
`(?i)(work\s+)?experience|employment\s+history|professional\s+experience`. -/
def expPat (s : Str) : Bool :=
  matchSeq [str "experience"] s || matchSeq [str "work", str "experience"] s ||
    matchSeq [str "employment", str "history"] s ||
    matchSeq [str "professional", str "experience"] s

/-- Heading regex for `education`: `(?i)education|academic\s+background|qualifications`. -/
def eduPat (s : Str) : Bool :=
  matchSeq [str "education"] s || matchSeq [str "academic", str "background"] s ||
    matchSeq [str "qualifications"] s

/-- Heading regex for `skills`: `(?i)(technical\s+)?skills|competencies|expertise`. -/
def sklPat (s : Str) : Bool :=
  matchSeq [str "skills"] s || matchSeq [str "technical", str "skills"] s ||
    matchSeq [str "competencies"] s || matchSeq [str "expertise"] s

/-- Heading regex for `projects`: `(?i)projects|portfolio`. -/
def prjPat (s : Str) : Bool :=
  matchSeq [str "projects"] s || matchSeq [str "portfolio"] s

/-- Heading regex for `summary`: `(?i)summary|profile|objective|about\s+me`. -/
def sumPat (s : Str) : Bool :=
  matchSeq [str "summary"] s || matchSeq [str "profile"] s ||
    matchSeq [str "objective"] s || matchSeq [str "about", str "me"] s

/-- Heading regex for `contact`: `(?i)contact|personal\s+information`. -/
def conPat (s : Str) : Bool :=
  matchSeq [str "contact"] s || matchSeq [str "personal", str "information"] s

/-- The `section_patterns` dict, in its (insertion-order) iteration order. -/
def sectionPatterns : List (String × (Str → Bool)) :=
  [("experience", expPat), ("education", eduPat), ("skills", sklPat),
   ("projects", prjPat), ("summary", sumPat), ("contact", conPat)]

/-- The header-detection loop body: the first pattern that matches the
stripped line with `len(line_stripped) < 50` wins (loop `break`). -/
def headerOf (stripped : Str) : Option String :=
  (sectionPatterns.find?
    (fun p => p.2 (stripped.map Char.toLower) && decide (stripped.length < 50))).map
    Prod.fst

/-- A section map: association list from section name to body text. -/
abbrev SectionMap := List (String × Str)

/-- Python `dict.get(k, "")` on a section map. -/
def getSec (m : SectionMap) (k : String) : Str :=
  ((m.find? (fun p => p.1 == k)).map Prod.snd).getD []

/-- The seven fixed section keys in the insertion order of the source dict. -/
def sectionKeys : List String :=
  ["contact", "summary", "experience", "education", "skills", "projects", "other"]

/-- The initial section map: all seven bodies empty. -/
def initSections : SectionMap := sectionKeys.map (fun k => (k, []))

/-- `sections[k] += v`. -/
def appendSec (m : SectionMap) (k : String) (v : Str) : SectionMap :=
  m.map (fun p => if p.1 = k then (p.1, p.2 ++ v) else p)

/-- The line loop of `split_into_sections`: headers switch the current
section and are dropped; non-blank lines are appended (plus a newline)
to the current section; blank lines are dropped. -/
def segLoop : List Str → String → SectionMap → SectionMap
  | [], _, m => m
  | line :: rest, cur, m =>
    match headerOf (pyStrip line) with
    | some name => segLoop rest name m
    | none =>
      if (pyStrip line).isEmpty then segLoop rest cur m
      else segLoop rest cur (appendSec m cur (line ++ ['\n']))

/-- `split_into_sections(text)`. -/
def split_into_sections (text : Str) : SectionMap :=
  segLoop (pySplit '\n' text) "other" initSections

/-- Decompose a section body built as `line1\nline2\n...` back into its lines. -/
def linesOfBody (b : Str) : List Str := (pySplit '\n' b).dropLast

/-- A body as stored by the segmenter: one chunk `l ++ "\n"` per appended line. -/
def chunks (ls : List Str) : Str := (ls.map (fun l => l ++ ['\n'])).flatten

/-- All lines stored in all section bodies, in map order. -/
def joinedBodyLines (m : SectionMap) : List Str :=
  (m.map (fun p => linesOfBody p.2)).flatten

/-- A line survives into some section body iff it is not a heading and is
not blank after stripping. -/
def keepLine (l : Str) : Bool :=
  (headerOf (pyStrip l)).isNone && !(pyStrip l).isEmpty

theorem linesOfBody_chunks {ls : List Str} (h : ∀ l ∈ ls, '\n' ∉ l) :
    linesOfBody (chunks ls) = ls := by
  induction ls with
  | nil => simp [linesOfBody, chunks, pySplit]
  | cons l ls ih =>
    have hl : '\n' ∉ l := h l (List.mem_cons_self _ _)
    have hls : ∀ x ∈ ls, '\n' ∉ x := fun x hx => h x (List.mem_cons_of_mem _ hx)
    have : chunks (l :: ls) = l ++ '\n' :: chunks ls := by
      simp [chunks]
    rw [linesOfBody, this, pySplit_sep_append hl]
    rcases List.exists_cons_of_ne_nil (pySplit_ne_nil '\n' (chunks ls)) with ⟨p, q, hpq⟩
    rw [hpq, List.dropLast_cons₂]
    have := ih hls
    rw [linesOfBody, hpq] at this
    rw [this]

theorem appendSec_map_fst (m : SectionMap) (k : String) (v : Str) :
    (appendSec m k v).map Prod.fst = m.map Prod.fst := by
  induction m with
  | nil => rfl
  | cons p m ih =>
    simp only [appendSec, List.map_cons] at ih ⊢
    by_cases hp : p.1 = k
    · rw [if_pos hp]; simp [ih]
    · rw [if_neg hp]; simp [ih]

theorem appendSec_eq_self {m : SectionMap} {k : String}
    (h : k ∉ m.map Prod.fst) (v : Str) : appendSec m k v = m := by
  induction m with
  | nil => rfl
  | cons p m ih =>
    simp only [List.map_cons, List.mem_cons, not_or] at h
    obtain ⟨h1, h2⟩ := h
    simp only [appendSec, List.map_cons]
    rw [if_neg (fun hh => h1 hh.symm)]
    exact congrArg (p :: ·) (ih h2)

/-- Bodies reachable by the segmenter: a concatenation of newline-terminated
chunks, one per stored line, none of which contains a newline itself. -/
def GoodBodies (m : SectionMap) : Prop :=
  ∀ p ∈ m, ∃ ls, (∀ l ∈ ls, '\n' ∉ l) ∧ p.2 = chunks ls

theorem joinedBodyLines_cons (p : String × Str) (m : SectionMap) :
    joinedBodyLines (p :: m) = linesOfBody p.2 ++ joinedBodyLines m := by
  simp [joinedBodyLines]

theorem appendSec_good {m : SectionMap} {k : String} {l : Str}
    (hb : GoodBodies m) (hl : '\n' ∉ l) :
    GoodBodies (appendSec m k (l ++ ['\n'])) := by
  intro p hp
  simp only [appendSec, List.mem_map] at hp
  obtain ⟨q, hq, hpq⟩ := hp
  obtain ⟨ls, hnl, hbody⟩ := hb q hq
  by_cases hqk : q.1 = k
  · refine ⟨ls ++ [l], ?_, ?_⟩
    · intro x hx
      rcases List.mem_append.mp hx with hx | hx
      · exact hnl x hx
      · rw [List.mem_singleton.mp hx]; exact hl
    · rw [← hpq, if_pos hqk]
      simp [chunks, hbody]
  · exact ⟨ls, hnl, by rw [← hpq, if_neg hqk]; exact hbody⟩

theorem appendSec_joined {m : SectionMap} {k : String} {l : Str}
    (hb : GoodBodies m) (hk : (m.map Prod.fst).count k = 1) (hl : '\n' ∉ l) :
    List.Perm (joinedBodyLines (appendSec m k (l ++ ['\n']))) (joinedBodyLines m ++ [l]) := by
  induction m with
  | nil => simp at hk
  | cons p m ih =>
    have hgood : GoodBodies m := fun q hq => hb q (List.mem_cons_of_mem _ hq)
    obtain ⟨ls, hnl, hbody⟩ := hb p (List.mem_cons_self _ _)
    by_cases hpk : p.1 = k
    · have hk0 : k ∉ m.map Prod.fst := by
        rw [List.map_cons, List.count_cons, if_pos (by simp [hpk])] at hk
        simp only [Nat.add_eq_one_iff] at hk
        rcases hk with ⟨h0, _⟩ | ⟨h0, h1⟩
        · exact List.count_eq_zero.mp h0
        · exact absurd h1 (by norm_num)
      have hcons : appendSec (p :: m) k (l ++ ['\n']) =
          (if p.1 = k then (p.1, p.2 ++ (l ++ ['\n'])) else p) ::
            appendSec m k (l ++ ['\n']) := rfl
      rw [hcons, if_pos hpk, appendSec_eq_self hk0, joinedBodyLines_cons,
        joinedBodyLines_cons]
      have hch : p.2 ++ (l ++ ['\n']) = chunks (ls ++ [l]) := by
        simp [chunks, hbody]
      have hnl2 : ∀ x ∈ ls ++ [l], '\n' ∉ x := by
        intro x hx
        rcases List.mem_append.mp hx with hx | hx
        · exact hnl x hx
        · rw [List.mem_singleton.mp hx]; exact hl
      rw [show (p.1, p.2 ++ (l ++ ['\n'])).2 = chunks (ls ++ [l]) from hch,
        linesOfBody_chunks hnl2, hbody, linesOfBody_chunks hnl]
      have he : (ls ++ [l]) ++ joinedBodyLines m = ls ++ ([l] ++ joinedBodyLines m) := by
        simp
      rw [he, List.append_assoc]
      exact List.Perm.append_left ls List.perm_append_comm
    · have hk1 : (m.map Prod.fst).count k = 1 := by
        rw [List.map_cons, List.count_cons, if_neg (by simp [hpk])] at hk
        simpa using hk
      have hcons : appendSec (p :: m) k (l ++ ['\n']) =
          (if p.1 = k then (p.1, p.2 ++ (l ++ ['\n'])) else p) ::
            appendSec m k (l ++ ['\n']) := rfl
      rw [hcons, if_neg hpk, joinedBodyLines_cons, joinedBodyLines_cons,
        List.append_assoc]
      exact List.Perm.append_left _ (ih hgood hk1)

theorem headerOf_mem_sectionKeys {s : Str} {n : String}
    (h : headerOf s = some n) : n ∈ sectionKeys := by
  cases hf : List.find?
      (fun p => p.2 (s.map Char.toLower) && decide (s.length < 50)) sectionPatterns with
  | none => simp [headerOf, hf] at h
  | some p =>
    have hp := List.mem_of_find?_eq_some hf
    have hn : p.1 = n := by simpa [headerOf, hf] using h
    simp only [sectionPatterns, List.mem_cons, List.not_mem_nil, or_false] at hp
    rcases hp with h1 | h1 | h1 | h1 | h1 | h1 <;> rw [← hn, h1] <;> decide

theorem segLoop_map_fst (lines : List Str) (cur : String) (m : SectionMap) :
    (segLoop lines cur m).map Prod.fst = m.map Prod.fst := by
  induction lines generalizing cur m with
  | nil => rfl
  | cons line rest ih =>
    simp only [segLoop]
    cases headerOf (pyStrip line) with
    | some name => exact ih name m
    | none =>
      by_cases hbl : (pyStrip line).isEmpty
      · rw [if_pos hbl]; exact ih cur m
      · rw [if_neg hbl, ih, appendSec_map_fst]

theorem segLoop_joined (lines : List Str) (hL : ∀ l ∈ lines, '\n' ∉ l)
    (cur : String) (hc : cur ∈ sectionKeys) (m : SectionMap)
    (hkeys : m.map Prod.fst = sectionKeys) (hb : GoodBodies m) :
    List.Perm (joinedBodyLines (segLoop lines cur m))
      (joinedBodyLines m ++ lines.filter keepLine) := by
  induction lines generalizing cur m with
  | nil => simp [segLoop]
  | cons line rest ih =>
    have hline : '\n' ∉ line := hL line (List.mem_cons_self _ _)
    have hrest : ∀ l ∈ rest, '\n' ∉ l := fun l hl => hL l (List.mem_cons_of_mem _ hl)
    simp only [segLoop]
    cases hh : headerOf (pyStrip line) with
    | some name =>
      have hkeep : keepLine line = false := by simp [keepLine, hh]
      have hfil : (line :: rest).filter keepLine = rest.filter keepLine := by
        simp [List.filter_cons, hkeep]
      rw [hfil]
      exact ih hrest name (headerOf_mem_sectionKeys hh) m hkeys hb
    | none =>
      by_cases hbl : (pyStrip line).isEmpty
      · have hkeep : keepLine line = false := by simp [keepLine, hh, hbl]
        have hfil : (line :: rest).filter keepLine = rest.filter keepLine := by
          simp [List.filter_cons, hkeep]
        rw [if_pos hbl, hfil]
        exact ih hrest cur hc m hkeys hb
      · have hkeep : keepLine line = true := by simp [keepLine, hh, hbl]
        have hfil : (line :: rest).filter keepLine = line :: rest.filter keepLine := by
          simp [List.filter_cons, hkeep]
        rw [if_neg hbl, hfil]
        have hcount : (m.map Prod.fst).count cur = 1 := by
          rw [hkeys]
          exact List.count_eq_one_of_mem (by decide) hc
        have h2 := appendSec_joined hb hcount hline
        have h3 := ih hrest cur hc (appendSec m cur (line ++ ['\n']))
          (by rw [appendSec_map_fst]; exact hkeys) (appendSec_good hb hline)
        refine h3.trans ?_
        refine (List.Perm.append_right _ h2).trans ?_
        exact List.Perm.of_eq (by simp)

theorem initSections_good : GoodBodies initSections := by
  intro p hp
  refine ⟨[], by simp, ?_⟩
  simp only [initSections, sectionKeys, List.map_cons, List.map_nil, List.mem_cons,
    List.not_mem_nil, or_false] at hp
  rcases hp with h | h | h | h | h | h | h <;> simp [h, chunks]

/-- The segmenter distributes exactly the non-heading, non-blank input lines
over the seven bodies (shared backbone of the segmentation claims). -/
theorem seg_joined_perm (t : Str) :
    List.Perm (joinedBodyLines (split_into_sections t)) ((pySplit '\n' t).filter keepLine) := by
  have h := segLoop_joined (pySplit '\n' t) (fun l hl => not_mem_of_mem_pySplit l hl)
    "other" (by decide) initSections rfl initSections_good
  simpa [show joinedBodyLines initSections = [] from rfl] using h

theorem split_map_fst (t : Str) :
    (split_into_sections t).map Prod.fst = sectionKeys := by
  rw [split_into_sections, segLoop_map_fst]
  rfl

/-- The heading test, written out in the fixed precedence order of
`section_patterns`: a pattern match plus the under-50-characters guard. -/
theorem headerOf_eq (s : Str) :
    headerOf s =
      if s.length < 50 then
        (if expPat (s.map Char.toLower) then some "experience"
         else if eduPat (s.map Char.toLower) then some "education"
         else if sklPat (s.map Char.toLower) then some "skills"
         else if prjPat (s.map Char.toLower) then some "projects"
         else if sumPat (s.map Char.toLower) then some "summary"
         else if conPat (s.map Char.toLower) then some "contact"
         else none)
      else none := by
  by_cases hlen : s.length < 50 <;>
    by_cases h1 : expPat (s.map Char.toLower) <;>
    by_cases h2 : eduPat (s.map Char.toLower) <;>
    by_cases h3 : sklPat (s.map Char.toLower) <;>
    by_cases h4 : prjPat (s.map Char.toLower) <;>
    by_cases h5 : sumPat (s.map Char.toLower) <;>
    by_cases h6 : conPat (s.map Char.toLower) <;>
    simp [headerOf, sectionPatterns, List.find?, hlen, h1, h2, h3, h4, h5, h6]

/-- C1 counterexample: on the input `"x\n\ny"` the blank middle line is a
non-heading line, yet it is stored in no section body, so the bodies are
not a permutation of all non-heading lines. -/
theorem c1_counterexample :
    ¬ ((split_into_sections (str "x\n\ny")).map Prod.fst = sectionKeys ∧
        List.Perm (joinedBodyLines (split_into_sections (str "x\n\ny")))
          ((pySplit '\n' (str "x\n\ny")).filter
            (fun l => (headerOf (pyStrip l)).isNone))) := by
  decide

/-- C1 (amended): `split_into_sections` always returns exactly the seven
fixed keys in order, and the concatenation of all section bodies is a
permutation of the non-heading lines of the input whose stripped form is
non-empty (blank lines are dropped along with headings). -/
theorem c1_segment_keys_and_partition (t : Str) :
    (split_into_sections t).map Prod.fst = sectionKeys ∧
    List.Perm (joinedBodyLines (split_into_sections t))
      ((pySplit '\n' t).filter keepLine) :=
  ⟨split_map_fst t, seg_joined_perm t⟩

/-- C4: a line is treated as a section heading iff some section pattern
matches at the start of the stripped line and the stripped line has fewer
than 50 characters, with the patterns tried in the fixed order experience,
education, skills, projects, summary, contact (first match wins); and a
heading line is never appended to any section body. -/
theorem c4_heading_rule (line : Str) (t : Str) :
    (headerOf (pyStrip line) =
      if (pyStrip line).length < 50 then
        (if expPat ((pyStrip line).map Char.toLower) then some "experience"
         else if eduPat ((pyStrip line).map Char.toLower) then some "education"
         else if sklPat ((pyStrip line).map Char.toLower) then some "skills"
         else if prjPat ((pyStrip line).map Char.toLower) then some "projects"
         else if sumPat ((pyStrip line).map Char.toLower) then some "summary"
         else if conPat ((pyStrip line).map Char.toLower) then some "contact"
         else none)
      else none) ∧
    ((headerOf (pyStrip line)).isSome →
      line ∉ joinedBodyLines (split_into_sections t)) := by
  refine ⟨headerOf_eq (pyStrip line), fun hsome hmem => ?_⟩
  have hfil : line ∈ (pySplit '\n' t).filter keepLine :=
    (seg_joined_perm t).mem_iff.mp hmem
  have hk := List.of_mem_filter hfil
  simp only [keepLine, Bool.and_eq_true, Option.isNone_iff_eq_none] at hk
  rw [hk.1] at hsome
  simp at hsome

/-- Witness for C4 at a concrete heading line. -/
theorem c4_witness :
    str "Skills" ∉ joinedBodyLines (split_into_sections (str "Skills\npython")) :=
  (c4_heading_rule (str "Skills") (str "Skills\npython")).2 (by decide)

/-! ### Experience estimator (`estimate_years_of_experience`)

Each `re.findall` call is embedded as a left-to-right scanner: at every
position it tries the pattern; on success it records the capture and
resumes after the consumed text (non-overlapping matches), otherwise it
advances one character.  Fuel (`length + 1`) only bounds the recursion;
every successful match consumes at least one character, so the fuel never
runs out on the initial call. -/

/-- Generic findall scanner.  `step prev s` attempts a match at the start
of `s` (with `prev` the preceding character, for `\b` look-behind) and
returns the capture plus the number of characters consumed. -/
def scanB (step : Option Char → Str → Option (α × Nat)) :
    Nat → Option Char → Str → List α
  | 0, _, _ => []
  | _ + 1, _, [] => []
  | fuel + 1, prev, c :: cs =>
    match step prev (c :: cs) with
    | some (a, n) => a :: scanB step fuel ((c :: cs).take n).getLast? ((c :: cs).drop n)
    | none => scanB step fuel (some c) cs

/-- Python `int()` on a captured string: defined exactly on non-empty
all-digit captures (the only shapes the date patterns can produce);
anything else models the `ValueError` branch. -/
def intOfDigits? (s : Str) : Option Nat :=
  if s ≠ [] ∧ s.all Char.isDigit then
    some (s.foldl (fun a c => 10 * a + (c.toNat - 48)) 0)
  else none

/-- Python `str.isdigit()` (ASCII digits). -/
def pyIsDigit (s : Str) : Bool := !s.isEmpty && s.all Char.isDigit

/-- Maximum of a list of naturals, as Python `max` on a non-empty list. -/
def pyMaxNat (l : List Nat) : Nat := l.foldr max 0

/-- Minimum of a non-empty list of naturals, as Python `min`. -/
def pyMinNat : List Nat → Nat
  | [] => 0
  | x :: xs => xs.foldl min x

/-- Match step for the explicit-mention pattern
`(\d+)\+?\s*years?\s+(?:of\s+)?(?:experience|exp)` (run on lowercased
text for `re.IGNORECASE`); returns the captured integer. -/
def explicitTail (r : Str) : Option Str :=
  let direct : Str → Option Str := fun t =>
    if (str "experience").isPrefixOf t then some (t.drop 10)
    else if (str "exp").isPrefixOf t then some (t.drop 3)
    else none
  match (if (str "of").isPrefixOf r then
           match r.drop 2 with
           | c :: _ => if isPySpace c then direct ((r.drop 2).dropWhile isPySpace) else none
           | [] => none
         else none) with
  | some rem => some rem
  | none => direct r

def explicitStep (_ : Option Char) (s : Str) : Option (Nat × Nat) :=
  let ds := s.takeWhile Char.isDigit
  if ds.isEmpty then none
  else
    let r1 := s.drop ds.length
    let r2 := match r1 with
      | '+' :: t => t
      | _ => r1
    let r3 := r2.dropWhile isPySpace
    if (str "year").isPrefixOf r3 then
      let r4 := r3.drop 4
      let r5 := match r4 with
        | 's' :: t => t
        | _ => r4
      match r5 with
      | c :: _ =>
        if isPySpace c then
          match explicitTail (r5.dropWhile isPySpace) with
          | some rem => some ((intOfDigits? ds).getD 0, s.length - rem.length)
          | none => none
        else none
      | [] => none
    else none

/-- The separator class `[-–—]`. -/
def isDash (c : Char) : Bool := c = '-' || c = '–' || c = '—'

/-- Match step for `(\d{4})\s*[-–—]\s*(\d{4})`. -/
def p1Step (_ : Option Char) (s : Str) : Option ((Str × Str) × Nat) :=
  let d1 := s.take 4
  if d1.length = 4 ∧ d1.all Char.isDigit then
    match (s.drop 4).dropWhile isPySpace with
    | c :: t =>
      if isDash c then
        let r2 := t.dropWhile isPySpace
        let d2 := r2.take 4
        if d2.length = 4 ∧ d2.all Char.isDigit then
          some ((d1, d2), s.length - (r2.drop 4).length)
        else none
      else none
    | [] => none
  else none

/-- Match step for `(\d{4})\s*[-–—]\s*(?:present|current)` (on lowercased
text); the single capture group makes `re.findall` return plain strings. -/
def p2Step (_ : Option Char) (s : Str) : Option (Str × Nat) :=
  let d1 := s.take 4
  if d1.length = 4 ∧ d1.all Char.isDigit then
    match (s.drop 4).dropWhile isPySpace with
    | c :: t =>
      if isDash c then
        let r2 := t.dropWhile isPySpace
        if (str "present").isPrefixOf r2 || (str "current").isPrefixOf r2 then
          some (d1, s.length - (r2.drop 7).length)
        else none
      else none
    | [] => none
  else none

/-- The twelve month-name prefixes of the month pattern alternation. -/
def monthNames : List Str :=
  [str "jan", str "feb", str "mar", str "apr", str "may", str "jun",
   str "jul", str "aug", str "sep", str "oct", str "nov", str "dec"]

/-- Month alternation followed by `\w*` (greedy; the following `\s+` is
disjoint from `\w`, so greedy consumption is exact). -/
def matchMonth (s : Str) : Option Str :=
  if monthNames.any (·.isPrefixOf s) then some ((s.drop 3).dropWhile isWordC)
  else none

/-- Match step for
`(?:jan|...|dec)\w*\s+(\d{4})\s*[-–—]\s*(?:jan|...|dec)\w*\s+(\d{4})`. -/
def p3Step (_ : Option Char) (s : Str) : Option ((Str × Str) × Nat) :=
  match matchMonth s with
  | none => none
  | some r1 =>
    match r1 with
    | c :: _ =>
      if isPySpace c then
        let r2 := r1.dropWhile isPySpace
        let d1 := r2.take 4
        if d1.length = 4 ∧ d1.all Char.isDigit then
          match (r2.drop 4).dropWhile isPySpace with
          | d :: t =>
            if isDash d then
              match matchMonth (t.dropWhile isPySpace) with
              | none => none
              | some r5 =>
                match r5 with
                | e :: _ =>
                  if isPySpace e then
                    let r6 := r5.dropWhile isPySpace
                    let d2 := r6.take 4
                    if d2.length = 4 ∧ d2.all Char.isDigit then
                      some ((d1, d2), s.length - (r6.drop 4).length)
                    else none
                  else none
                | [] => none
            else none
          | [] => none
        else none
      else none
    | [] => none

/-- Match step for the fallback pattern `\b(19\d{2}|20\d{2})\b`. -/
def yearStep (prev : Option Char) (s : Str) : Option (Str × Nat) :=
  if (match prev with
      | some c => isWordC c
      | none => false) then none
  else
    let d := s.take 4
    if d.length = 4 ∧ d.all Char.isDigit ∧
        ((str "19").isPrefixOf d ∨ (str "20").isPrefixOf d) then
      if (match (s.drop 4).head? with
          | some c => isWordC c
          | none => false) then none
      else some (d, 4)
    else none

/-- `experience_text = sections.get("experience", "") + " " + text`. -/
def experienceText (text : Str) (sections : SectionMap) : Str :=
  getSec sections "experience" ++ str " " ++ text

/-- Captures of the explicit-mention pattern over the experience text. -/
def explicitMatches (text : Str) (sections : SectionMap) : List Nat :=
  let et := (experienceText text sections).map Char.toLower
  scanB explicitStep (et.length + 1) none et

/-- Per-match month contribution of the date-range loop.  Mirrors the body
`if len(match) == 2: start = int(match[0]); end = int(match[1]) if
match[1].isdigit() else current_year; sanity check; add months`. -/
def monthsFrom (cy : Nat) (m0 m1 : Str) : Nat :=
  match intOfDigits? m0 with
  | none => 0
  | some start =>
    let endY := if pyIsDigit m1 then (intOfDigits? m1).getD 0 else cy
    if 1980 ≤ start ∧ start ≤ cy ∧ start ≤ endY ∧ endY ≤ cy + 1 then
      (endY - start) * 12
    else 0

/-- A two-group match is a tuple of length 2, so it is always processed. -/
def monthsOfPair (cy : Nat) (m : Str × Str) : Nat := monthsFrom cy m.1 m.2

/-- A one-group match is a plain string, whose Python `len` is its character
count; a 4-character year capture therefore always fails the
`len(match) == 2` test and contributes nothing. -/
def monthsOfSingle (cy : Nat) (s : Str) : Nat :=
  if s.length = 2 then monthsFrom cy (s.take 1) (s.drop 1) else 0

/-- Total months accumulated over the three date-range pattern families. -/
def totalMonths (cy : Nat) (text : Str) (sections : SectionMap) : Nat :=
  let et := (experienceText text sections).map Char.toLower
  let fuel := et.length + 1
  ((scanB p1Step fuel none et).map (monthsOfPair cy)).sum +
    ((scanB p2Step fuel none et).map (monthsOfSingle cy)).sum +
    ((scanB p3Step fuel none et).map (monthsOfPair cy)).sum

/-- Distinct years found by the fallback pattern, filtered to
`[1980, current_year]`.  `set()` deduplicates; `min` is order-invariant,
so keeping first occurrences is faithful. -/
def fallbackYears (cy : Nat) (text : Str) (sections : SectionMap) : List Nat :=
  let et := experienceText text sections
  (((scanB yearStep (et.length + 1) none et).dedup).map
    (fun s => (intOfDigits? s).getD 0)).filter (fun y => 1980 ≤ y ∧ y ≤ cy)

/-- `estimate_years_of_experience(text, sections)` with the dynamic
`datetime.now().year` passed explicitly as `cy`.  `total_months` is always
a multiple of 12, so `round(total_months / 12)` is exact division. -/
def estimate_years (text : Str) (sections : SectionMap) (cy : Nat) : Nat :=
  if (explicitMatches text sections).isEmpty then
    if 0 < totalMonths cy text sections then
      max 1 (totalMonths cy text sections / 12)
    else
      if (fallbackYears cy text sections).isEmpty then 0
      else max 1 (cy - pyMinNat (fallbackYears cy text sections))
  else pyMaxNat (explicitMatches text sections)

/-- C3: whenever the explicit-mention pattern matches in the concatenation
of the experience body and the full text, the estimator returns the maximum
captured integer (no later cascade rule is consulted); in particular
`estimate_years("5 years of experience", {}) = 5` and
`estimate_years("", {}) = 0`, for any current year. -/
theorem c3_explicit_mention (text : Str) (sections : SectionMap) (cy : Nat)
    (h : explicitMatches text sections ≠ []) :
    estimate_years text sections cy = pyMaxNat (explicitMatches text sections) ∧
    estimate_years (str "5 years of experience") [] cy = 5 ∧
    estimate_years (str "") [] cy = 0 := by
  refine ⟨?_, ?_, ?_⟩
  · have hne : (explicitMatches text sections).isEmpty = false := by
      cases hm : explicitMatches text sections with
      | nil => exact absurd hm h
      | cons a l => rfl
    simp [estimate_years, hne]
  · have he : explicitMatches (str "5 years of experience") [] = [5] := by decide
    simp [estimate_years, he, pyMaxNat]
  · have h1 : explicitMatches (str "") [] = [] := by decide
    have h2 : scanB p1Step ((experienceText (str "") []).length + 1) none
        ((experienceText (str "") []).map Char.toLower) = [] := by decide
    have h3 : scanB p2Step ((experienceText (str "") []).length + 1) none
        ((experienceText (str "") []).map Char.toLower) = [] := by decide
    have h4 : scanB p3Step ((experienceText (str "") []).length + 1) none
        ((experienceText (str "") []).map Char.toLower) = [] := by decide
    have h5 : scanB yearStep ((experienceText (str "") []).length + 1) none
        (experienceText (str "") []) = [] := by decide
    simp [estimate_years, h1, totalMonths, fallbackYears, h2, h3, h4, h5]

/-- Witness for C3 at the concrete explicit mention. -/
theorem c3_witness :
    estimate_years (str "5 years of experience") [] 2030 =
      pyMaxNat (explicitMatches (str "5 years of experience") []) ∧
    estimate_years (str "5 years of experience") [] 2030 = 5 ∧
    estimate_years (str "") [] 2030 = 0 :=
  c3_explicit_mention (str "5 years of experience") [] 2030 (by decide)

/-- C2 failing input: with current year 2026 the text
`"2020 - present 2022 - present"` contains two matches of the
`YYYY-present/current` family (claimed contribution
`(2026-2020)*12 + (2026-2022)*12 = 120` months, hence 10 years), but
`re.findall` returns them as bare strings whose `len` is 4, so the
`len(match) == 2` guard drops them, `total_months` stays 0, and the code
falls through to the distinct-years rule, answering 6. -/
theorem c2_present_ranges_dropped :
    (scanB p2Step
        (((experienceText (str "2020 - present 2022 - present") []).map
            Char.toLower).length + 1) none
        ((experienceText (str "2020 - present 2022 - present") []).map
          Char.toLower)) = [str "2020", str "2022"] ∧
    totalMonths 2026 (str "2020 - present 2022 - present") [] = 0 ∧
    estimate_years (str "2020 - present 2022 - present") [] 2026 = 6 := by
  decide

/-! ### Skill detector (`extract_skills`) -/

/-- `\b`: a word boundary between two (possibly absent) neighbours. -/
def boundB (l r : Option Char) : Bool :=
  (match l with
   | some c => isWordC c
   | none => false) !=
  (match r with
   | some c => isWordC c
   | none => false)

/-- `re.search(r'\b' + re.escape(needle) + r'\b', s)` succeeding at the
current position, with `prev` the character before it. -/
def wbHere (prev : Option Char) (needle s : Str) : Bool :=
  needle.isPrefixOf s && boundB prev s.head? &&
    boundB (match needle.getLast? with
            | some c => some c
            | none => prev) (s.drop needle.length).head?

def wbGo (needle : Str) : Option Char → Str → Bool
  | prev, [] => wbHere prev needle []
  | prev, c :: cs => wbHere prev needle (c :: cs) || wbGo needle (some c) cs

/-- Whole-word (word-boundary delimited) search of `needle` in `hay`. -/
def wordBoundedIn (needle hay : Str) : Bool := wbGo needle none hay

/-- Lexicographic (code-point) comparison of Python strings, as used by
`sorted` on the set of found skills. -/
def lexLe : Str → Str → Bool
  | [], _ => true
  | _ :: _, [] => false
  | a :: as, b :: bs => if a = b then lexLe as bs else decide (a < b)

/-- Insertion step of the sort. -/
def insertLe (x : Str) : List Str → List Str
  | [] => [x]
  | y :: ys => if lexLe x y then x :: y :: ys else y :: insertLe x ys

/-- Insertion sort by `lexLe` (the order `sorted` produces). -/
def sortLe : List Str → List Str
  | [] => []
  | x :: xs => insertLe x (sortLe xs)

theorem lexLe_total (a b : Str) : lexLe a b = true ∨ lexLe b a = true := by
  induction a generalizing b with
  | nil => left; rfl
  | cons x as ih =>
    cases b with
    | nil => right; rfl
    | cons y bs =>
      by_cases hxy : x = y
      · subst hxy
        rcases ih bs with h | h
        · left; simpa [lexLe] using h
        · right; simpa [lexLe] using h
      · rcases lt_or_gt_of_ne hxy with h | h
        · left; simp [lexLe, hxy, h]
        · right
          have hyx : ¬ y = x := fun hh => hxy hh.symm
          simp [lexLe, hyx, h]

theorem lexLe_trans {a b c : Str} (h1 : lexLe a b = true) (h2 : lexLe b c = true) :
    lexLe a c = true := by
  induction a generalizing b c with
  | nil => rfl
  | cons x as ih =>
    cases b with
    | nil => simp [lexLe] at h1
    | cons y bs =>
      cases c with
      | nil => simp [lexLe] at h2
      | cons z cs =>
        by_cases hxy : x = y <;> by_cases hyz : y = z
        · subst hxy; subst hyz
          simp only [lexLe, if_pos rfl] at h1 h2 ⊢
          exact ih h1 h2
        · subst hxy
          simp only [lexLe, if_pos rfl, if_neg hyz] at h2 ⊢
          exact h2
        · subst hyz
          simp only [lexLe, if_neg hxy] at h1 ⊢
          exact h1
        · simp only [lexLe, if_neg hxy, if_neg hyz, decide_eq_true_eq] at h1 h2
          by_cases hxz : x = z
          · subst hxz; exact absurd (lt_trans h1 h2) (lt_irrefl x)
          · simp [lexLe, if_neg hxz, lt_trans h1 h2]

/-- `lexLe` is exactly the Mathlib lexicographic order on `List Char`. -/
theorem lexLe_iff_le (a b : Str) : lexLe a b = true ↔ a ≤ b := by
  induction a generalizing b with
  | nil =>
    cases b with
    | nil => simp [lexLe, le_refl]
    | cons y bs =>
      simp only [lexLe, true_iff]
      exact le_of_lt (List.Lex.nil)
  | cons x as ih =>
    cases b with
    | nil =>
      simp only [lexLe, Bool.false_eq_true, false_iff]
      intro h
      rcases h with h | h
      · exact List.noConfusion h
      · cases h
    | cons y bs =>
      by_cases hxy : x = y
      · subst hxy
        rw [show lexLe (x :: as) (x :: bs) = lexLe as bs by simp [lexLe]]
        rw [ih bs]
        constructor
        · intro h
          rcases h with h | h
          · exact Or.inl (by rw [h])
          · exact Or.inr (List.Lex.cons h)
        · intro h
          rcases h with h | h
          · exact Or.inl (by injection h)
          · cases h with
            | cons h => exact Or.inr h
            | rel h => exact absurd h (lt_irrefl x)
      · simp only [lexLe, if_neg hxy, decide_eq_true_eq]
        constructor
        · intro h
          exact Or.inr (List.Lex.rel h)
        · intro h
          rcases h with h | h
          · exact absurd (by injection h) hxy
          · cases h with
            | cons h => exact absurd rfl hxy
            | rel h => exact h

theorem insertLe_perm (x : Str) (l : List Str) :
    List.Perm (insertLe x l) (x :: l) := by
  induction l with
  | nil => exact List.Perm.refl _
  | cons y ys ih =>
    simp only [insertLe]
    split
    · exact List.Perm.refl _
    · exact (List.Perm.cons y ih).trans (List.Perm.swap x y ys)

theorem sortLe_perm (l : List Str) : List.Perm (sortLe l) l := by
  induction l with
  | nil => exact List.Perm.refl _
  | cons x xs ih =>
    exact (insertLe_perm x (sortLe xs)).trans (List.Perm.cons x ih)

theorem sorted_insertLe {l : List Str} (x : Str)
    (h : l.Sorted (fun a b => lexLe a b = true)) :
    (insertLe x l).Sorted (fun a b => lexLe a b = true) := by
  induction l with
  | nil => simp [insertLe]
  | cons y ys ih =>
    rw [List.sorted_cons] at h
    obtain ⟨hy, hys⟩ := h
    simp only [insertLe]
    split
    · rename_i hxy
      rw [List.sorted_cons]
      refine ⟨fun b hb => ?_, List.sorted_cons.mpr ⟨hy, hys⟩⟩
      rcases List.mem_cons.mp hb with hb | hb
      · rw [hb]; exact hxy
      · exact lexLe_trans hxy (hy b hb)
    · rename_i hxy
      have hyx : lexLe y x = true := (lexLe_total x y).resolve_left hxy
      rw [List.sorted_cons]
      refine ⟨fun b hb => ?_, ih hys⟩
      rcases List.mem_cons.mp ((insertLe_perm x ys).mem_iff.mp hb) with hb | hb
      · rw [hb]; exact hyx
      · exact hy b hb

theorem sorted_sortLe (l : List Str) :
    (sortLe l).Sorted (fun a b => lexLe a b = true) := by
  induction l with
  | nil => simp [sortLe]
  | cons x xs ih => exact sorted_insertLe x ih

/-- The optional linguistic tokenizer (spaCy model): noun-phrase chunks
and tokens of a document, of entirely arbitrary behaviour. -/
structure NLP where
  nounChunks : Str → List Str
  tokens : Str → List Str

/-- The skills accumulated by `extract_skills` before deduplication and
sorting: direct word-boundary matches of vocabulary entries against the
combined skills/experience/projects text or the full text, plus (when a
tokenizer is present) noun chunks and tokens over the first 10000
characters of the search text whose lowercased text is a vocabulary
entry. -/
def skillsFound (text : Str) (sections : SectionMap) (db : List Str)
    (nlp : Option NLP) : List Str :=
  let search_text := (getSec sections "skills" ++ str " " ++
    getSec sections "experience" ++ str " " ++
      getSec sections "projects").map Char.toLower
  let full_text_lower := text.map Char.toLower
  let direct : List Str :=
    db.filter (fun sk =>
      wordBoundedIn sk search_text || wordBoundedIn sk full_text_lower)
  match nlp with
  | none => direct
  | some n =>
    let doc := search_text.take 10000
    (direct ++
      ((n.nounChunks doc).map (fun c => pyStrip (c.map Char.toLower))).filter
        (fun c => decide (c ∈ db))) ++
      ((n.tokens doc).map (fun t => t.map Char.toLower)).filter
        (fun t => decide (t ∈ db))

/-- `extract_skills(text, sections)` = `sorted(list(found_skills))`: the
accumulation is a set, modelled by `dedup`, then sorted. -/
def extract_skills (text : Str) (sections : SectionMap) (db : List Str)
    (nlp : Option NLP) : List Str :=
  sortLe (skillsFound text sections db nlp).dedup

theorem skillsFound_subset (text : Str) (sections : SectionMap)
    (db : List Str) (nlp : Option NLP) :
    ∀ x ∈ skillsFound text sections db nlp, x ∈ db := by
  intro x hx
  cases nlp with
  | none =>
    simp only [skillsFound, List.mem_filter] at hx
    exact hx.1
  | some n =>
    simp only [skillsFound, List.mem_append, List.mem_filter,
      decide_eq_true_eq, List.mem_map] at hx
    rcases hx with (hx | hx) | hx
    · exact hx.1
    · exact hx.2
    · exact hx.2

/-- C6: for every input and every tokenizer behaviour (present or absent),
the detector returns a subset of the vocabulary, sorted ascending in the
lexicographic order, with no duplicates; the enrichment step never adds a
string outside the vocabulary. -/
theorem c6_skills_subset_sorted (text : Str) (sections : SectionMap)
    (db : List Str) (nlp : Option NLP) :
    (∀ x ∈ extract_skills text sections db nlp, x ∈ db) ∧
    (extract_skills text sections db nlp).Sorted (· ≤ ·) ∧
    (extract_skills text sections db nlp).Nodup := by
  refine ⟨fun x hx => ?_, ?_, ?_⟩
  · have hx2 : x ∈ (skillsFound text sections db nlp).dedup :=
      (sortLe_perm _).mem_iff.mp hx
    exact skillsFound_subset text sections db nlp x (List.mem_dedup.mp hx2)
  · exact (sorted_sortLe _).imp (fun h => (lexLe_iff_le _ _).mp h)
  · exact (sortLe_perm _).nodup_iff.mpr (List.nodup_dedup _)

/-- Witness for C6 at a concrete input with the tokenizer absent. -/
theorem c6_witness : str "python" ∈ [str "python", str "java"] :=
  (c6_skills_subset_sorted (str "I know Python") [] [str "python", str "java"]
    none).1 (str "python") (by decide)

/-! ### Scorer (`calculate_score`)

Python floats are modelled by exact rationals.  Every category value the
scorer can produce is an exact multiple of 1/10, on which Python
`round(x, 2)` (round-half-to-even, modelled by `pyRound2`) is the
identity, so the rational model is exact. -/

/-- Python substring containment `needle in hay`. -/
def containsSub (n : Str) : Str → Bool
  | [] => n.isPrefixOf []
  | c :: t => n.isPrefixOf (c :: t) || containsSub n t

/-- Helper of `wordCount`: counts space-to-nonspace transitions. -/
def wcAux : Bool → Str → Nat
  | _, [] => 0
  | prevSp, c :: cs => (if prevSp && !isPySpace c then 1 else 0) + wcAux (isPySpace c) cs

/-- `len(text.split())`: the number of maximal nonspace runs. -/
def wordCount (s : Str) : Nat := wcAux true s

/-- The character class `[\w.-]` of the email pattern. -/
def emailClass (c : Char) : Bool := isWordC c || c = '.' || c = '-'

/-- Domain part after the `@`: `[\w.-]+\.\w+\b`.  The flag records whether
at least one class character was consumed; the disjunction at each step
models the backtracking split before the final dot, and the trailing `\b`
always holds after a maximal `\w+` run. -/
def emailTailGo : Bool → Str → Bool
  | _, [] => false
  | seen, c :: cs =>
    (seen && c = '.' &&
      (match cs with
       | d :: _ => isWordC d
       | [] => false)) ||
    (emailClass c && emailTailGo true cs)

/-- Local part `[\w.-]+@`: a non-empty class run ending at the first `@`
(the class cannot contain `@`), then the domain part. -/
def emailLocalGo : Str → Bool
  | [] => false
  | c :: cs =>
    emailClass c &&
      (match cs with
       | '@' :: cs2 => emailTailGo false cs2
       | _ => emailLocalGo cs)

def emailGo : Option Char → Str → Bool
  | _, [] => false
  | prev, c :: cs => (boundB prev (some c) && emailLocalGo (c :: cs)) || emailGo (some c) cs

/-- `re.search(r'\b[\w\.-]+@[\w\.-]+\.\w+\b', text)` as a Boolean. -/
def emailSearch (s : Str) : Bool := emailGo none s

/-- The 16 fixed ATS keywords of the keyword category. -/
def atsKeywords : List Str :=
  [str "achieved", str "improved", str "increased", str "reduced", str "managed",
   str "led", str "developed", str "implemented", str "designed", str "analyzed",
   str "created", str "results", str "metrics", str "team", str "project",
   str "delivered"]

/-- Round half to even (Python `round` on exact values). -/
def roundHalfEven (q : ℚ) : ℤ :=
  if Int.fract q < 1/2 then ⌊q⌋
  else if 1/2 < Int.fract q then ⌊q⌋ + 1
  else if Even ⌊q⌋ then ⌊q⌋ else ⌊q⌋ + 1

/-- Python `round(q, 2)` on exact rationals. -/
def pyRound2 (q : ℚ) : ℚ := (roundHalfEven (q * 100) : ℚ) / 100

/-- Experience category (0-30): `>=6 → 30; >=3 → 15+(y-3)*3.3; else y*7.5`,
clamped to 30. -/
def experienceScore (y : Nat) : ℚ :=
  min 30 (if 6 ≤ y then 30
    else if 3 ≤ y then 15 + ((y : ℚ) - 3) * (33/10)
    else (y : ℚ) * (15/2))

/-- Skills category (0-35): `>=11 → 35; >=6 → 15+(n-6)*2.0; else n*3.0`,
clamped to 35. -/
def skillsScore (n : Nat) : ℚ :=
  min 35 (if 11 ≤ n then 35
    else if 6 ≤ n then 15 + ((n : ℚ) - 6) * 2
    else (n : ℚ) * 3)

/-- Education category (0-15): tiered keyword search over the lowercased
education section body. -/
def educationScore (sections : SectionMap) : ℚ :=
  let t := (getSec sections "education").map Char.toLower
  if [str "phd", str "ph.d", str "doctorate"].any (fun w => containsSub w t) then 15
  else if [str "master", str "msc", str "mba", str "m.s",
      str "m.a"].any (fun w => containsSub w t) then 12
  else if [str "bachelor", str "bsc", str "ba", str "b.s", str "b.a",
      str "undergraduate"].any (fun w => containsSub w t) then 10
  else if [str "associate", str "diploma",
      str "certification"].any (fun w => containsSub w t) then 7
  else if !(pyStrip t).isEmpty then 5
  else 0

/-- Format category (0-10): contact/email check, bullet check, non-empty
section count, word count; summed then clamped to 10. -/
def formatScore (text : Str) (sections : SectionMap) : ℚ :=
  min 10 (
    (if !(getSec sections "contact").isEmpty || emailSearch text then 2 else 0) +
    (if 3 < text.count '•' || 5 < text.count '-' then 2 else 0) +
    (if 4 ≤ (sections.map Prod.snd).countP (fun s => !(pyStrip s).isEmpty) then 3
     else if 2 ≤ (sections.map Prod.snd).countP (fun s => !(pyStrip s).isEmpty) then 3/2
     else 0) +
    (if 300 ≤ wordCount text ∧ wordCount text ≤ 1500 then 3
     else if 150 ≤ wordCount text ∧ wordCount text ≤ 2000 then 3/2
     else 0))

/-- Number of the 16 ATS keywords present (as case-insensitive substrings)
in the text: `sum(1 for kw in ats_keywords if kw in text_lower)`. -/
def kwCount (text : Str) : Nat :=
  atsKeywords.countP (fun kw => containsSub kw (text.map Char.toLower))

/-- Keywords category (0-10): `min(10, matches * 0.7)`. -/
def keywordsScore (text : Str) : ℚ := min 10 ((kwCount text : ℚ) * (7/10))

/-- The five-key score breakdown. -/
structure Breakdown where
  experience : ℚ
  skills : ℚ
  education : ℚ
  format : ℚ
  keywords : ℚ
deriving DecidableEq

set_option linter.unusedVariables false in
/-- `calculate_score(text, sections, skills, years_exp, job_title)`:
returns `(round(total, 2), {k: round(v, 2)})` where the total is the sum
of the five raw category values.  `job_title` is accepted and unused,
exactly as in the source. -/
def calculate_score (text : Str) (sections : SectionMap) (skills : List Str)
    (years_exp : Nat) (job_title : Str) : ℚ × Breakdown :=
  (pyRound2 (experienceScore years_exp + skillsScore skills.length +
      educationScore sections + formatScore text sections + keywordsScore text),
   ⟨pyRound2 (experienceScore years_exp), pyRound2 (skillsScore skills.length),
    pyRound2 (educationScore sections), pyRound2 (formatScore text sections),
    pyRound2 (keywordsScore text)⟩)

/-- Exact multiples of 1/10: every raw category value has this form, and
`round(x, 2)` is the identity on them. -/
def Tenth (q : ℚ) : Prop := ∃ n : ℤ, q = n / 10

theorem Tenth.add {a b : ℚ} (ha : Tenth a) (hb : Tenth b) : Tenth (a + b) := by
  obtain ⟨m, rfl⟩ := ha
  obtain ⟨n, rfl⟩ := hb
  exact ⟨m + n, by push_cast; ring⟩

theorem Tenth.min {a b : ℚ} (ha : Tenth a) (hb : Tenth b) : Tenth (Min.min a b) := by
  rcases min_choice a b with h | h <;> rw [h] <;> assumption

theorem pyRound2_eq_self {q : ℚ} (h : Tenth q) : pyRound2 q = q := by
  obtain ⟨n, rfl⟩ := h
  have h100 : (n : ℚ) / 10 * 100 = ((10 * n : ℤ) : ℚ) := by push_cast; ring
  rw [pyRound2, h100]
  rw [show roundHalfEven ((10 * n : ℤ) : ℚ) = 10 * n by
    rw [roundHalfEven, Int.fract_intCast, if_pos (by norm_num : (0 : ℚ) < 1/2),
      Int.floor_intCast]]
  push_cast
  ring

theorem experienceScore_tenth (y : Nat) : Tenth (experienceScore y) := by
  rw [experienceScore]
  refine Tenth.min ⟨300, by norm_num⟩ ?_
  split_ifs
  · exact ⟨300, by norm_num⟩
  · exact ⟨33 * y + 51, by push_cast; ring⟩
  · exact ⟨75 * y, by push_cast; ring⟩

theorem experienceScore_bounds (y : Nat) :
    0 ≤ experienceScore y ∧ experienceScore y ≤ 30 := by
  rw [experienceScore]
  refine ⟨le_min (by norm_num) ?_, min_le_left _ _⟩
  split_ifs with h1 h2
  · norm_num
  · have : (3 : ℚ) ≤ y := by exact_mod_cast h2
    nlinarith
  · positivity

theorem experienceScore_mono {y1 y2 : Nat} (h : y1 ≤ y2) :
    experienceScore y1 ≤ experienceScore y2 := by
  have hc : (y1 : ℚ) ≤ (y2 : ℚ) := by exact_mod_cast h
  rw [experienceScore, experienceScore]
  rcases le_or_lt 6 y2 with h6 | h6
  · rw [if_pos h6]
    simp only [min_self]
    calc Min.min 30 (if 6 ≤ y1 then (30 : ℚ)
        else if 3 ≤ y1 then 15 + ((y1 : ℚ) - 3) * (33/10)
        else (y1 : ℚ) * (15/2)) ≤ 30 := min_le_left _ _
      _ = 30 := rfl
  · have h61 : ¬ 6 ≤ y1 := by omega
    rw [if_neg h61, if_neg (by omega : ¬ 6 ≤ y2)]
    rcases le_or_lt 3 y2 with h3 | h3
    · rcases le_or_lt 3 y1 with h31 | h31
      · rw [if_pos h31, if_pos h3]
        refine min_le_min le_rfl ?_
        have := mul_le_mul_of_nonneg_right (sub_le_sub_right hc 3)
          (by norm_num : (0 : ℚ) ≤ 33/10)
        linarith
      · rw [if_neg (by omega : ¬ 3 ≤ y1), if_pos h3]
        have hy1 : (y1 : ℚ) ≤ 2 := by exact_mod_cast (by omega : y1 ≤ 2)
        have h32 : (3 : ℚ) ≤ y2 := by exact_mod_cast h3
        refine le_min (min_le_left _ _) (le_trans (min_le_right _ _) ?_)
        nlinarith
    · rw [if_neg (by omega : ¬ 3 ≤ y1), if_neg (by omega : ¬ 3 ≤ y2)]
      exact min_le_min le_rfl (mul_le_mul_of_nonneg_right hc (by norm_num))

theorem skillsScore_tenth (n : Nat) : Tenth (skillsScore n) := by
  rw [skillsScore]
  refine Tenth.min ⟨350, by norm_num⟩ ?_
  split_ifs
  · exact ⟨350, by norm_num⟩
  · exact ⟨20 * n + 30, by push_cast; ring⟩
  · exact ⟨30 * n, by push_cast; ring⟩

theorem skillsScore_bounds (n : Nat) :
    0 ≤ skillsScore n ∧ skillsScore n ≤ 35 := by
  rw [skillsScore]
  refine ⟨le_min (by norm_num) ?_, min_le_left _ _⟩
  split_ifs with h1 h2
  · norm_num
  · have : (6 : ℚ) ≤ n := by exact_mod_cast h2
    nlinarith
  · positivity

theorem skillsScore_mono {n1 n2 : Nat} (h : n1 ≤ n2) :
    skillsScore n1 ≤ skillsScore n2 := by
  have hc : (n1 : ℚ) ≤ (n2 : ℚ) := by exact_mod_cast h
  rw [skillsScore, skillsScore]
  rcases le_or_lt 11 n2 with h11 | h11
  · rw [if_pos h11]
    simp only [min_self]
    calc Min.min 35 (if 11 ≤ n1 then (35 : ℚ)
        else if 6 ≤ n1 then 15 + ((n1 : ℚ) - 6) * 2
        else (n1 : ℚ) * 3) ≤ 35 := min_le_left _ _
      _ = 35 := rfl
  · have h111 : ¬ 11 ≤ n1 := by omega
    rw [if_neg h111, if_neg (by omega : ¬ 11 ≤ n2)]
    rcases le_or_lt 6 n2 with h6 | h6
    · rcases le_or_lt 6 n1 with h61 | h61
      · rw [if_pos h61, if_pos h6]
        refine min_le_min le_rfl ?_
        have := mul_le_mul_of_nonneg_right (sub_le_sub_right hc 6)
          (by norm_num : (0 : ℚ) ≤ 2)
        linarith
      · rw [if_neg (by omega : ¬ 6 ≤ n1), if_pos h6]
        have hn1 : (n1 : ℚ) ≤ 5 := by exact_mod_cast (by omega : n1 ≤ 5)
        have h62 : (6 : ℚ) ≤ n2 := by exact_mod_cast h6
        refine le_min (min_le_left _ _) (le_trans (min_le_right _ _) ?_)
        nlinarith
    · rw [if_neg (by omega : ¬ 6 ≤ n1), if_neg (by omega : ¬ 6 ≤ n2)]
      exact min_le_min le_rfl (mul_le_mul_of_nonneg_right hc (by norm_num))

theorem educationScore_tenth (s : SectionMap) : Tenth (educationScore s) := by
  rw [educationScore]
  split_ifs
  · exact ⟨150, by norm_num⟩
  · exact ⟨120, by norm_num⟩
  · exact ⟨100, by norm_num⟩
  · exact ⟨70, by norm_num⟩
  · exact ⟨50, by norm_num⟩
  · exact ⟨0, by norm_num⟩

theorem educationScore_bounds (s : SectionMap) :
    0 ≤ educationScore s ∧ educationScore s ≤ 15 := by
  rw [educationScore]
  split_ifs <;> norm_num

theorem formatScore_tenth (t : Str) (s : SectionMap) : Tenth (formatScore t s) := by
  rw [formatScore]
  refine Tenth.min ⟨100, by norm_num⟩ ?_
  have h1 : Tenth (if !(getSec s "contact").isEmpty || emailSearch t then (2:ℚ) else 0) := by
    split_ifs
    · exact ⟨20, by norm_num⟩
    · exact ⟨0, by norm_num⟩
  have h2 : Tenth (if 3 < t.count '•' || 5 < t.count '-' then (2:ℚ) else 0) := by
    split_ifs
    · exact ⟨20, by norm_num⟩
    · exact ⟨0, by norm_num⟩
  have h3 : Tenth
      (if 4 ≤ (s.map Prod.snd).countP (fun b => !(pyStrip b).isEmpty) then (3:ℚ)
       else if 2 ≤ (s.map Prod.snd).countP (fun b => !(pyStrip b).isEmpty) then 3/2
       else 0) := by
    split_ifs
    · exact ⟨30, by norm_num⟩
    · exact ⟨15, by norm_num⟩
    · exact ⟨0, by norm_num⟩
  have h4 : Tenth
      (if 300 ≤ wordCount t ∧ wordCount t ≤ 1500 then (3:ℚ)
       else if 150 ≤ wordCount t ∧ wordCount t ≤ 2000 then 3/2
       else 0) := by
    split_ifs
    · exact ⟨30, by norm_num⟩
    · exact ⟨15, by norm_num⟩
    · exact ⟨0, by norm_num⟩
  exact Tenth.add (Tenth.add (Tenth.add h1 h2) h3) h4

theorem formatScore_bounds (t : Str) (s : SectionMap) :
    0 ≤ formatScore t s ∧ formatScore t s ≤ 10 := by
  rw [formatScore]
  refine ⟨le_min (by norm_num) ?_, min_le_left _ _⟩
  have b1 : (0 : ℚ) ≤
      (if !(getSec s "contact").isEmpty || emailSearch t then 2 else 0) := by
    split_ifs <;> norm_num
  have b2 : (0 : ℚ) ≤ (if 3 < t.count '•' || 5 < t.count '-' then 2 else 0) := by
    split_ifs <;> norm_num
  have b3 : (0 : ℚ) ≤
      (if 4 ≤ (s.map Prod.snd).countP (fun b => !(pyStrip b).isEmpty) then 3
       else if 2 ≤ (s.map Prod.snd).countP (fun b => !(pyStrip b).isEmpty) then 3/2
       else 0) := by
    split_ifs <;> norm_num
  have b4 : (0 : ℚ) ≤
      (if 300 ≤ wordCount t ∧ wordCount t ≤ 1500 then 3
       else if 150 ≤ wordCount t ∧ wordCount t ≤ 2000 then 3/2
       else 0) := by
    split_ifs <;> norm_num
  linarith

theorem keywordsScore_tenth (t : Str) : Tenth (keywordsScore t) := by
  rw [keywordsScore]
  exact Tenth.min ⟨100, by norm_num⟩ ⟨7 * kwCount t, by push_cast; ring⟩

theorem keywordsScore_bounds (t : Str) :
    0 ≤ keywordsScore t ∧ keywordsScore t ≤ 10 := by
  rw [keywordsScore]
  exact ⟨le_min (by norm_num) (by positivity), min_le_left _ _⟩

theorem breakdown_experience_eq (t : Str) (s : SectionMap) (sk : List Str)
    (y : Nat) (j : Str) :
    (calculate_score t s sk y j).2.experience = experienceScore y :=
  pyRound2_eq_self (experienceScore_tenth y)

theorem breakdown_skills_eq (t : Str) (s : SectionMap) (sk : List Str)
    (y : Nat) (j : Str) :
    (calculate_score t s sk y j).2.skills = skillsScore sk.length :=
  pyRound2_eq_self (skillsScore_tenth sk.length)

theorem breakdown_education_eq (t : Str) (s : SectionMap) (sk : List Str)
    (y : Nat) (j : Str) :
    (calculate_score t s sk y j).2.education = educationScore s :=
  pyRound2_eq_self (educationScore_tenth s)

theorem breakdown_format_eq (t : Str) (s : SectionMap) (sk : List Str)
    (y : Nat) (j : Str) :
    (calculate_score t s sk y j).2.format = formatScore t s :=
  pyRound2_eq_self (formatScore_tenth t s)

theorem breakdown_keywords_eq (t : Str) (s : SectionMap) (sk : List Str)
    (y : Nat) (j : Str) :
    (calculate_score t s sk y j).2.keywords = keywordsScore t :=
  pyRound2_eq_self (keywordsScore_tenth t)

theorem total_tenth (t : Str) (s : SectionMap) (sk : List Str) (y : Nat) :
    Tenth (experienceScore y + skillsScore sk.length + educationScore s +
      formatScore t s + keywordsScore t) :=
  ((((experienceScore_tenth y).add (skillsScore_tenth sk.length)).add
    (educationScore_tenth s)).add (formatScore_tenth t s)).add
    (keywordsScore_tenth t)

theorem total_eq (t : Str) (s : SectionMap) (sk : List Str) (y : Nat) (j : Str) :
    (calculate_score t s sk y j).1 = experienceScore y + skillsScore sk.length +
      educationScore s + formatScore t s + keywordsScore t :=
  pyRound2_eq_self (total_tenth t s sk y)

/-- C5: every breakdown value is at most its category maximum, the total
equals the sum of the five breakdown values, the total lies in [0, 100],
and total and breakdown values are exact two-decimal quantities. -/
theorem c5_score_bounds (t : Str) (s : SectionMap) (sk : List Str) (y : Nat)
    (j : Str) :
    (calculate_score t s sk y j).2.experience ≤ 30 ∧
    (calculate_score t s sk y j).2.skills ≤ 35 ∧
    (calculate_score t s sk y j).2.education ≤ 15 ∧
    (calculate_score t s sk y j).2.format ≤ 10 ∧
    (calculate_score t s sk y j).2.keywords ≤ 10 ∧
    (calculate_score t s sk y j).1 =
      (calculate_score t s sk y j).2.experience +
      (calculate_score t s sk y j).2.skills +
      (calculate_score t s sk y j).2.education +
      (calculate_score t s sk y j).2.format +
      (calculate_score t s sk y j).2.keywords ∧
    0 ≤ (calculate_score t s sk y j).1 ∧ (calculate_score t s sk y j).1 ≤ 100 ∧
    (∃ n : ℤ, (calculate_score t s sk y j).1 = n / 100) ∧
    (∃ n : ℤ, (calculate_score t s sk y j).2.experience = n / 100) ∧
    (∃ n : ℤ, (calculate_score t s sk y j).2.skills = n / 100) ∧
    (∃ n : ℤ, (calculate_score t s sk y j).2.education = n / 100) ∧
    (∃ n : ℤ, (calculate_score t s sk y j).2.format = n / 100) ∧
    (∃ n : ℤ, (calculate_score t s sk y j).2.keywords = n / 100) := by
  have he := experienceScore_bounds y
  have hs := skillsScore_bounds sk.length
  have hed := educationScore_bounds s
  have hf := formatScore_bounds t s
  have hk := keywordsScore_bounds t
  rw [breakdown_experience_eq, breakdown_skills_eq, breakdown_education_eq,
    breakdown_format_eq, breakdown_keywords_eq, total_eq]
  have cent : ∀ q : ℚ, Tenth q → ∃ n : ℤ, q = n / 100 := by
    rintro q ⟨n, rfl⟩
    exact ⟨10 * n, by push_cast; ring⟩
  refine ⟨he.2, hs.2, hed.2, hf.2, hk.2, rfl, by linarith, by linarith,
    cent _ (total_tenth t s sk y), cent _ (experienceScore_tenth y),
    cent _ (skillsScore_tenth sk.length), cent _ (educationScore_tenth s),
    cent _ (formatScore_tenth t s), cent _ (keywordsScore_tenth t)⟩

/-- C9: the experience sub-score is monotone in the years of experience and
the skills sub-score is monotone in the number of detected skills, other
inputs held fixed. -/
theorem c9_monotone (t : Str) (s : SectionMap) (sk sk1 sk2 : List Str)
    (j : Str) (y y1 y2 : Nat) (hy : y1 ≤ y2) (hsk : sk1.length ≤ sk2.length) :
    (calculate_score t s sk y1 j).2.experience ≤
      (calculate_score t s sk y2 j).2.experience ∧
    (calculate_score t s sk1 y j).2.skills ≤
      (calculate_score t s sk2 y j).2.skills := by
  rw [breakdown_experience_eq, breakdown_experience_eq, breakdown_skills_eq,
    breakdown_skills_eq]
  exact ⟨experienceScore_mono hy, skillsScore_mono hsk⟩

/-- Witness for C9: years 2 to 7 and skill count 0 to 1. -/
theorem c9_witness :
    (calculate_score (str "") [] [] 2 (str "")).2.experience ≤
      (calculate_score (str "") [] [] 7 (str "")).2.experience ∧
    (calculate_score (str "") [] [] 0 (str "")).2.skills ≤
      (calculate_score (str "") [] [str "sql"] 0 (str "")).2.skills :=
  c9_monotone (str "") [] [] [] [str "sql"] (str "") 0 2 7
    (by decide) (by decide)

/-- C10: the optional job-title argument is accepted but never read: two
calls that differ only in it return identical totals and breakdowns. -/
theorem c10_job_title_unused (t : Str) (s : SectionMap) (sk : List Str)
    (y : Nat) (j1 j2 : Str) :
    calculate_score t s sk y j1 = calculate_score t s sk y j2 := rfl

/-- C7 (amended): the keywords category equals `min(10, matches * 0.7)`
where `matches` is the number of the 16 fixed ATS keywords that occur at
least once as a case-insensitive substring of the full text. -/
theorem c7_keywords_formula (t : Str) (s : SectionMap) (sk : List Str)
    (y : Nat) (j : Str) :
    (calculate_score t s sk y j).2.keywords =
      Min.min 10 ((kwCount t : ℚ) * (7/10)) := by
  rw [breakdown_keywords_eq, keywordsScore]

/-- Total number of (non-overlapping) case-insensitive substring
occurrences of `n` in the remaining text; fuel bounds the recursion. -/
def countOccAux : Nat → Str → Str → Nat
  | 0, _, _ => 0
  | _ + 1, _, [] => 0
  | fuel + 1, n, c :: t =>
    if n.isPrefixOf (c :: t) then 1 + countOccAux fuel n ((c :: t).drop n.length)
    else countOccAux fuel n t

/-- Occurrence count of `n` in `h` (notion used by the claim wording). -/
def specOccurrences (n h : Str) : Nat := countOccAux (h.length + 1) n h

/-- The claim reading of `matches`: the summed number of occurrences of
each of the 16 ATS keywords in the lowercased text (a second definition
following the claim wording, to compare against `kwCount`). -/
def specAtsOccurrences (t : Str) : Nat :=
  (atsKeywords.map (fun kw => specOccurrences kw (t.map Char.toLower))).sum

/-- C7 counterexample: in `"led led"` the keyword `led` occurs twice, so
the claimed occurrence-count formula yields `min(10, 2*0.7) = 1.4`, but the
code counts each keyword at most once and returns 0.7. -/
theorem c7_counterexample :
    (calculate_score (str "led led") [] [] 0 (str "")).2.keywords ≠
      Min.min 10 ((specAtsOccurrences (str "led led") : ℚ) * (7/10)) := by
  have h1 : (calculate_score (str "led led") [] [] 0 (str "")).2.keywords =
      7/10 := by
    rw [breakdown_keywords_eq, keywordsScore,
      show kwCount (str "led led") = 1 from by decide]
    rw [min_def]
    norm_num
  have h2 : specAtsOccurrences (str "led led") = 2 := by decide
  rw [h1, h2, min_def]
  norm_num

/-! ### Text extractor (`extract_text_from_pdf`)

The external PDF library is modelled by its outcome: either it raises
(an `Except.error` with the cause) or yields the per-page
`page.extract_text()` results, `none` for pages without text. -/

/-- The remediation message of the no-text `ValueError` in the source. -/
def noTextMsg : Str :=
  str "No text could be extracted from the PDF. This PDF may be:\n1. A scanned image (not searchable text)\n2. Password protected\n3. Corrupted or empty\nPlease try:\n- Exporting your resume as PDF from Word/Google Docs\n- Using a PDF with selectable text\n- Converting scanned PDFs using OCR software"

/-- The `except Exception` wrapper: `ValueError(f"Failed to extract text
from PDF: {str(e)}")`. -/
def wrapMsg (e : Str) : Str := str "Failed to extract text from PDF: " ++ e

/-- The page loop: skip `None` and falsy (empty) page texts, append a
newline after each contributing page. -/
def concatPages (pages : List (Option Str)) : Str :=
  pages.foldl (fun acc p =>
    match p with
    | some pt => if !pt.isEmpty then acc ++ pt ++ ['\n'] else acc
    | none => acc) []

/-- `extract_text_from_pdf`: on library failure, wrap the cause; on
success, fail iff the concatenated text is empty after stripping (the
inner `ValueError` is itself caught and wrapped by the outer handler). -/
def extract_text_from_pdf (parse : Except Str (List (Option Str))) :
    Except Str Str :=
  match parse with
  | .error e => .error (wrapMsg e)
  | .ok pages =>
    if (pyStrip (concatPages pages)).isEmpty then .error (wrapMsg noTextMsg)
    else .ok (concatPages pages)

theorem isPrefixOf_self (l : Str) : l.isPrefixOf l = true := by
  induction l with
  | nil => rfl
  | cons c t ih => simp [List.isPrefixOf, ih]

theorem containsSub_append_left (n pre : Str) : containsSub n (pre ++ n) = true := by
  induction pre with
  | nil =>
    cases n with
    | nil => rfl
    | cons c t => simp [containsSub, isPrefixOf_self]
  | cons c pre ih =>
    show containsSub n (c :: (pre ++ n)) = true
    simp only [containsSub, Bool.or_eq_true]
    exact Or.inr ih

/-- C8: given a successful parse, extraction fails exactly when the
concatenated page text is empty or whitespace-only after stripping, and
then the diagnostic mentions scanned image, password protected and
corrupted; when the library itself raises, the same error kind wraps the
underlying cause (whose text is contained in the message). -/
theorem c8_extraction_error (pages : List (Option Str)) (e : Str) :
    ((extract_text_from_pdf (.ok pages)).isOk = true ↔
      ¬ (pyStrip (concatPages pages)).isEmpty = true) ∧
    ((pyStrip (concatPages pages)).isEmpty = true →
      extract_text_from_pdf (.ok pages) = .error (wrapMsg noTextMsg) ∧
      containsSub (str "scanned image")
        ((wrapMsg noTextMsg).map Char.toLower) = true ∧
      containsSub (str "password protected")
        ((wrapMsg noTextMsg).map Char.toLower) = true ∧
      containsSub (str "corrupted")
        ((wrapMsg noTextMsg).map Char.toLower) = true) ∧
    (extract_text_from_pdf (.error e) = .error (wrapMsg e) ∧
      containsSub e (wrapMsg e) = true) := by
  refine ⟨?_, fun h => ⟨?_, by decide, by decide, by decide⟩,
    rfl, containsSub_append_left e _⟩
  · by_cases h : (pyStrip (concatPages pages)).isEmpty
    · simp [extract_text_from_pdf, h, Except.isOk, Except.toBool]
    · simp [extract_text_from_pdf, h, Except.isOk, Except.toBool]
  · simp [extract_text_from_pdf, h]

/-- Witness for C8 on a single-page PDF with no extractable text. -/
theorem c8_witness :
    extract_text_from_pdf (.ok [none]) = .error (wrapMsg noTextMsg) ∧
    containsSub (str "scanned image")
      ((wrapMsg noTextMsg).map Char.toLower) = true := by
  have h := (c8_extraction_error [none] (str "")).2.1 (by decide)
  exact ⟨h.1, h.2.1⟩

end Resume
